import Mathlib

/-!
Verification of `fluent-bundle/src/resource.rs` (the `FluentResource`
self-owning parsed buffer) against its specification.

The Rust code wraps `Yoke<ast::Resource<&str>, String>`: an owned source
string together with a parsed AST whose string data borrows from that
source.  We embed the yoke as a plain pair (AST, source string) and, as
the specification itself recommends for portability, represent each
borrowed string reference in the AST as a span (offset + length) into
the source.  The external parser `fluent_syntax::parser::parse_runtime`
and the AST node types live in this repository but outside the verified
source file; they are modelled from the specification's interface
boundary as an arbitrary function constrained by spec-derived
predicates.
-/

namespace Fluent

/-- Modelled from the spec: a span/offset reference — a non-owning
location marker (start + length) into the owned buffer, standing for a
`&str` borrowed from the source text. -/
structure Span where
  start : Nat
  len : Nat
deriving Repr, DecidableEq

/-- Modelled from the spec: one top-level parsed construct.  The node
types of `fluent_syntax::ast` are opaque at this boundary; an entry is
composed of references (spans) into the source text. -/
structure Entry where
  spans : List Span
deriving Repr, DecidableEq

/-- The parsed tree: `ast::Resource { body: Vec<Entry> }`, an ordered
sequence of top-level entries. -/
structure Resource where
  body : List Entry
deriving Repr, DecidableEq

/-- Modelled from the spec: a diagnostic record produced by the parser,
carrying a position/range and a recoverable-syntax-problem kind
(`fluent_syntax::parser::ParserError`, opaque at this boundary). -/
structure ParserError where
  pos : Nat × Nat
  kind : Nat
deriving Repr, DecidableEq

/-- The result type of `parse_runtime`:
`Result<ast::Resource, (ast::Resource, Vec<ParserError>)>`.  The parser
is total: even the error variant carries a recovered tree. -/
abbrev ParseResult := Except (Resource × List ParserError) Resource

/-- The closure body passed to `attach_to_cart` in `try_new`: take the
recovered AST out of either variant of the parse result. -/
def recoveredAst : ParseResult → Resource
  | .ok ast => ast
  | .error (ast, _) => ast

/-- Embedding of `FluentResource(Yoke<ast::Resource<'static>, String>)`:
the yoked AST together with the backing cart (the owned source
string). -/
structure FluentResource where
  ast : Resource
  cart : String
deriving Repr, DecidableEq

/-- Embedding of `FluentResource::try_new`.  The parser is passed as a
function argument since it is external to the verified file.  Mirrors
the Rust: run the parser over the source, remember the error vector if
the parse result was `Err`, bind the recovered AST to the owned source,
and dispatch on whether errors were recorded. -/
def try_new (parse_runtime : String → ParseResult) (source : String) :
    Except (FluentResource × List ParserError) FluentResource :=
  let errors : Option (List ParserError) :=
    match parse_runtime source with
    | .ok _ => none
    | .error (_, err) => some err
  let res : FluentResource := ⟨recoveredAst (parse_runtime source), source⟩
  match errors with
  | none => .ok res
  | some err => .error (res, err)

/-- Embedding of `FluentResource::source`: return the backing cart. -/
def FluentResource.source (self : FluentResource) : String :=
  self.cart

/-- Embedding of `FluentResource::entries`: the iterator over
`Yoke::get(&self.0).body` modelled as the list it yields, in order. -/
def FluentResource.entries (self : FluentResource) : List Entry :=
  self.ast.body

/-- Embedding of `FluentResource::get_entry`:
`Yoke::get(&self.0).body.get(idx)`. -/
def FluentResource.get_entry (self : FluentResource) (idx : Nat) : Option Entry :=
  self.ast.body.get? idx

/-- A span points into (is in bounds of) a given source text. -/
def Span.inBounds (sp : Span) (s : String) : Prop :=
  sp.start + sp.len ≤ s.length

/-- Every reference reachable from the tree points into the source
text. -/
def Resource.wf (r : Resource) (s : String) : Prop :=
  ∀ e ∈ r.body, ∀ sp ∈ e.spans, sp.inBounds s

/-- Modelled from the spec: the parser's output boundary — the tree's
span data are references into the input text it was given. -/
def ParserSpansInBounds (p : String → ParseResult) : Prop :=
  ∀ s : String, Resource.wf (recoveredAst (p s)) s

/-- Modelled from the spec: the parser reports malformed input via the
error variant exactly when it produced one or more diagnostics, so the
diagnostic list carried by the error variant is non-empty. -/
def ParserErrorsNonempty (p : String → ParseResult) : Prop :=
  ∀ s ast err, p s = .error (ast, err) → err ≠ []

/-- Modelled from the spec: on empty input the parser succeeds with an
empty tree and no diagnostics. -/
def ParserEmptyInput (p : String → ParseResult) : Prop :=
  p "" = .ok ⟨[]⟩

/-- A read access through a shared reference `&self`.  The three public
accessors are the only operations available after construction. -/
inductive ReadOp where
  | sourceOp : ReadOp
  | entriesOp : ReadOp
  | getEntryOp : Nat → ReadOp
deriving Repr, DecidableEq

/-- The value returned by a read access. -/
inductive ReadResult where
  | text : String → ReadResult
  | entryList : List Entry → ReadResult
  | entryOpt : Option Entry → ReadResult
deriving Repr, DecidableEq

/-- The value a single read access yields on a given resource. -/
def readValue (r : FluentResource) : ReadOp → ReadResult
  | .sourceOp => .text r.source
  | .entriesOp => .entryList r.entries
  | .getEntryOp i => .entryOpt (r.get_entry i)

/-- One read call, in state-passing form: the accessors take `&self`
and `Yoke` has no interior mutability, so the state after the call is
the state before it. -/
def readCall (r : FluentResource) (op : ReadOp) : ReadResult × FluentResource :=
  (readValue r op, r)

/-- Run a sequence of read calls, threading the resource state through
them, and collect the values each call yields. -/
def runReads (r : FluentResource) : List ReadOp → List ReadResult × FluentResource
  | [] => ([], r)
  | op :: ops =>
    let step := readCall r op
    let rest := runReads step.2 ops
    (step.1 :: rest.1, rest.2)

/-- C3: Round-trip — for every parser and every input text, the
resource returned by `try_new` (in either the `Ok` or the `Err`
outcome) has `source()` equal to the input exactly; no transformation
is applied. -/
theorem source_round_trip (p : String → ParseResult) (s : String) :
    (match try_new p s with
      | .ok r => r.source
      | .error (r, _) => r.source) = s := by
  unfold try_new
  cases h : p s with
  | ok ast => simp [FluentResource.source]
  | error e => simp [FluentResource.source]

/-- C10: `try_new` is a faithful repackaging of the parser's result —
it returns `Ok` exactly on the parser's `Ok`, stores exactly the AST
the parser returned in both outcomes, and in the `Err` outcome passes
the parser's error vector through unmodified. -/
theorem try_new_repackages_parse (p : String → ParseResult) (s : String) :
    (∀ ast, p s = .ok ast → try_new p s = .ok ⟨ast, s⟩) ∧
    (∀ ast err, p s = .error (ast, err) → try_new p s = .error (⟨ast, s⟩, err)) := by
  constructor
  · intro ast h
    unfold try_new
    simp [h, recoveredAst]
  · intro ast err h
    unfold try_new
    simp [h, recoveredAst]

/-- C4: bounds safety of `get_entry` — for every constructed resource
and every index, `get_entry` returns the entry at that position when
the index is within the entry list, and `none` otherwise; it is a pure
total function, so it can neither fault nor have side effects. -/
theorem get_entry_bounds (r : FluentResource) (i : Nat) :
    (∀ h : i < r.entries.length, r.get_entry i = some (r.entries.get ⟨i, h⟩)) ∧
    (r.entries.length ≤ i → r.get_entry i = none) := by
  constructor
  · intro h
    exact List.get?_eq_get h
  · intro h
    exact List.get?_eq_none.mpr h

/-- C5: entry-count consistency — the number of items `entries()`
yields equals the entry count of the stored tree, and for every index
below that count `get_entry` returns exactly the corresponding item of
`entries()`. -/
theorem entries_count_consistent (r : FluentResource) :
    r.entries.length = r.ast.body.length ∧
    (∀ i, ∀ h : i < r.entries.length,
      r.get_entry i = some (r.entries.get ⟨i, h⟩)) := by
  constructor
  · rfl
  · intro i h
    exact List.get?_eq_get h

/-- Helper: a sequence of read calls leaves the resource state
unchanged. -/
theorem runReads_state_eq (r : FluentResource) (ops : List ReadOp) :
    (runReads r ops).2 = r := by
  induction ops with
  | nil => rfl
  | cons op ops ih => simp [runReads, readCall, ih]

/-- Helper: each read call in a sequence yields the value determined by
the initial resource alone. -/
theorem runReads_values_eq (r : FluentResource) (ops : List ReadOp) :
    (runReads r ops).1 = ops.map (readValue r) := by
  induction ops with
  | nil => rfl
  | cons op ops ih => simp [runReads, readCall, ih]

/-- C7: idempotent read access — running any sequence of read calls
(`source`, `entries`, `get_entry`) leaves the resource unchanged, and
each call yields the value determined by the original resource alone,
so repeated calls to the same accessor yield equal results every
time. -/
theorem reads_idempotent (r : FluentResource) (ops : List ReadOp) :
    (runReads r ops).2 = r ∧ (runReads r ops).1 = ops.map (readValue r) :=
  ⟨runReads_state_eq r ops, runReads_values_eq r ops⟩

/-- Helper: the resource returned by `try_new`, in either outcome, is
exactly the recovered AST bound to the owned source string. -/
theorem try_new_resource_eq (p : String → ParseResult) (s : String)
    (r : FluentResource)
    (h : try_new p s = .ok r ∨ ∃ err, try_new p s = .error (r, err)) :
    r = ⟨recoveredAst (p s), s⟩ := by
  unfold try_new at h
  cases hps : p s with
  | ok ast =>
    rw [hps] at h
    simp [recoveredAst] at h
    simp [recoveredAst]
    exact h.symm
  | error e =>
    obtain ⟨ast, err⟩ := e
    rw [hps] at h
    simp [recoveredAst] at h
    simp [recoveredAst]
    exact h.symm

/-- C1: every span reachable from the stored AST entries (via
`entries` or `get_entry`) points into the resource's own stored source
text, for every resource constructed by `try_new`, in both outcomes;
the accessors are pure, so the invariant holds for the whole lifetime
of the value. -/
theorem try_new_spans_in_bounds (p : String → ParseResult)
    (hp : ParserSpansInBounds p) (s : String) (r : FluentResource)
    (h : try_new p s = .ok r ∨ ∃ err, try_new p s = .error (r, err)) :
    (∀ e ∈ r.entries, ∀ sp ∈ e.spans, sp.start + sp.len ≤ r.source.length) ∧
    (∀ i e, r.get_entry i = some e → ∀ sp ∈ e.spans,
      sp.start + sp.len ≤ r.source.length) := by
  rw [try_new_resource_eq p s r h]
  have hw := hp s
  constructor
  · intro e he sp hsp
    exact hw e he sp hsp
  · intro i e he sp hsp
    exact hw e (List.get?_mem he) sp hsp

/-- C2: `try_new` returns `Ok` exactly when the parser produced zero
diagnostics; in the `Err` outcome it carries both a fully constructed
resource holding every entry the parser recovered — retrievable via
`entries` and `get_entry` — and the non-empty diagnostic list; it is a
total function, so construction never aborts. -/
theorem try_new_ok_iff_no_diagnostics (p : String → ParseResult)
    (hp : ParserErrorsNonempty p) (s : String) :
    ((∃ r, try_new p s = .ok r) ↔ (∃ ast, p s = .ok ast)) ∧
    (∀ r err, try_new p s = .error (r, err) →
      err ≠ [] ∧ r.entries = (recoveredAst (p s)).body ∧
      (∀ i, r.get_entry i = (recoveredAst (p s)).body.get? i)) := by
  constructor
  · constructor
    · rintro ⟨r, hr⟩
      unfold try_new at hr
      cases hps : p s with
      | ok ast => exact ⟨ast, rfl⟩
      | error e =>
        obtain ⟨ast, err⟩ := e
        rw [hps] at hr
        simp at hr
    · rintro ⟨ast, hps⟩
      refine ⟨⟨ast, s⟩, ?_⟩
      unfold try_new
      rw [hps]
      simp [recoveredAst]
  · intro r err hr
    have hre : r = ⟨recoveredAst (p s), s⟩ :=
      try_new_resource_eq p s r (Or.inr ⟨err, hr⟩)
    refine ⟨?_, ?_, ?_⟩
    · unfold try_new at hr
      cases hps : p s with
      | ok ast =>
        rw [hps] at hr
        simp at hr
      | error e =>
        obtain ⟨ast, err₀⟩ := e
        rw [hps] at hr
        simp at hr
        rw [← hr.2]
        exact hp s ast err₀ hps
    · rw [hre]
      rfl
    · intro i
      rw [hre]
      rfl

/-- C6: `entries()` yields exactly the parsed tree's top-level entries
in the order the parser emitted them; the sequence is a finite list,
and after any sequence of read calls a fresh `entries()` traversal
still yields that same sequence. -/
theorem entries_source_order (p : String → ParseResult) (s : String)
    (r : FluentResource)
    (h : try_new p s = .ok r ∨ ∃ err, try_new p s = .error (r, err)) :
    r.entries = (recoveredAst (p s)).body ∧
    (∀ ops : List ReadOp,
      ((runReads r ops).2).entries = (recoveredAst (p s)).body) := by
  rw [try_new_resource_eq p s r h]
  refine ⟨rfl, ?_⟩
  intro ops
  rw [runReads_state_eq]
  rfl

/-- C8: constructing from the empty input returns the success variant
(no diagnostics), and the resulting resource has no entries:
`entries()` yields nothing and `get_entry 0` is absent. -/
theorem try_new_empty_input (p : String → ParseResult)
    (hp : ParserEmptyInput p) :
    try_new p "" = .ok ⟨⟨[]⟩, ""⟩ ∧
    (∀ r, try_new p "" = .ok r →
      r.entries = [] ∧ r.get_entry 0 = none ∧ r.source = "") := by
  have hmain : try_new p "" = .ok ⟨⟨[]⟩, ""⟩ := by
    unfold try_new
    rw [hp]
    simp [recoveredAst]
  refine ⟨hmain, ?_⟩
  intro r hr
  rw [hmain] at hr
  simp at hr
  rw [← hr]
  exact ⟨rfl, rfl, rfl⟩

/-- A parser instance for concrete evaluation: it always succeeds with
one entry holding the empty span at offset 0. -/
def okParser : String → ParseResult :=
  fun _ => .ok ⟨[⟨[⟨0, 0⟩]⟩]⟩

/-- A parser instance for concrete evaluation: it always reports one
diagnostic alongside a recovered one-entry tree. -/
def errParser : String → ParseResult :=
  fun _ => .error (⟨[⟨[⟨0, 0⟩]⟩]⟩, [⟨(0, 1), 0⟩])

/-- A parser instance for concrete evaluation: it always succeeds with
an empty tree. -/
def emptyOkParser : String → ParseResult :=
  fun _ => .ok ⟨[]⟩

/-- The spans `okParser` emits are in bounds of any input. -/
theorem okParser_spans_in_bounds : ParserSpansInBounds okParser := by
  intro s
  unfold okParser recoveredAst Resource.wf
  intro e he sp hsp
  simp at he
  subst he
  simp at hsp
  subst hsp
  simp [Span.inBounds]

/-- The error list `errParser` reports is never empty. -/
theorem errParser_errors_nonempty : ParserErrorsNonempty errParser := by
  intro s ast err h
  unfold errParser at h
  simp at h
  rw [← h.2]
  simp

/-- The resource `try_new okParser "ab"` evaluates to. -/
def wRes1 : FluentResource := ⟨⟨[⟨[⟨0, 0⟩]⟩]⟩, "ab"⟩

/-- Witness for C1 at the concrete parser `okParser` and source
`"ab"`. -/
theorem try_new_spans_in_bounds_witness :
    ParserSpansInBounds okParser ∧
    ((∀ e ∈ wRes1.entries, ∀ sp ∈ e.spans,
        sp.start + sp.len ≤ wRes1.source.length) ∧
     (∀ i e, wRes1.get_entry i = some e → ∀ sp ∈ e.spans,
        sp.start + sp.len ≤ wRes1.source.length)) :=
  ⟨okParser_spans_in_bounds,
   try_new_spans_in_bounds okParser okParser_spans_in_bounds "ab" wRes1
     (Or.inl rfl)⟩

/-- Witness for C2 at the concrete parser `errParser` and source
`"x"`. -/
theorem try_new_ok_iff_no_diagnostics_witness :
    ParserErrorsNonempty errParser ∧
    (((∃ r, try_new errParser "x" = .ok r) ↔
        (∃ ast, errParser "x" = .ok ast)) ∧
     (∀ r err, try_new errParser "x" = .error (r, err) →
       err ≠ [] ∧ r.entries = (recoveredAst (errParser "x")).body ∧
       (∀ i, r.get_entry i = (recoveredAst (errParser "x")).body.get? i))) :=
  ⟨errParser_errors_nonempty,
   try_new_ok_iff_no_diagnostics errParser errParser_errors_nonempty "x"⟩

/-- Witness for C4 at a concrete one-entry resource: index 0 is
present, index 1 is absent. -/
theorem get_entry_bounds_witness :
    wRes1.get_entry 0 = some ⟨[⟨0, 0⟩]⟩ ∧ wRes1.get_entry 1 = none := by
  constructor
  · have h := (get_entry_bounds wRes1 0).1 (by decide)
    simpa using h
  · exact (get_entry_bounds wRes1 1).2 (by decide)

/-- Witness for C5 at a concrete one-entry resource. -/
theorem entries_count_consistent_witness :
    wRes1.entries.length = wRes1.ast.body.length ∧
    wRes1.get_entry 0 = some ⟨[⟨0, 0⟩]⟩ := by
  refine ⟨(entries_count_consistent wRes1).1, ?_⟩
  have h := (entries_count_consistent wRes1).2 0 (by decide)
  simpa using h

/-- Witness for C6 at the concrete parser `okParser` and source
`"ab"`. -/
theorem entries_source_order_witness :
    wRes1.entries = (recoveredAst (okParser "ab")).body ∧
    (∀ ops : List ReadOp,
      ((runReads wRes1 ops).2).entries = (recoveredAst (okParser "ab")).body) :=
  entries_source_order okParser "ab" wRes1 (Or.inl rfl)

/-- Witness for C8 at the concrete parser `emptyOkParser`. -/
theorem try_new_empty_input_witness :
    try_new emptyOkParser "" = .ok ⟨⟨[]⟩, ""⟩ ∧
    (∀ r, try_new emptyOkParser "" = .ok r →
      r.entries = [] ∧ r.get_entry 0 = none ∧ r.source = "") :=
  try_new_empty_input emptyOkParser rfl

/-- Witness for C10: both branches evaluated at concrete parsers and
the source `"x"`. -/
theorem try_new_repackages_parse_witness :
    try_new emptyOkParser "x" = .ok ⟨⟨[]⟩, "x"⟩ ∧
    try_new errParser "x" = .error (⟨⟨[⟨[⟨0, 0⟩]⟩]⟩, "x"⟩, [⟨(0, 1), 0⟩]) :=
  ⟨(try_new_repackages_parse emptyOkParser "x").1 ⟨[]⟩ rfl,
   (try_new_repackages_parse errParser "x").2 ⟨[⟨[⟨0, 0⟩]⟩]⟩ [⟨(0, 1), 0⟩] rfl⟩

end Fluent
